import Mathlib

/-!
Shallow embedding of the TideWatch application (src/App.tsx, src/types.ts).

Modelling conventions:
* Timestamps are minutes since an arbitrary epoch, as `Int`; a calendar day
  is its epoch-day index `Int`.  `parse(p.t, 'yyyy-MM-dd HH:mm', ...)` and
  `parseFloat(p.v)` are external library calls, so a `TidePrediction` here
  carries the already-parsed timestamp `t : Int` and height `v : ℚ`.
* Heights and the threshold are rationals; the JavaScript comparisons on
  these values are exact.
* `localStorage` is an association list of string keys to string values;
  `date-fns` helpers (`isSameDay`, `isAfter`, `differenceInDays`,
  `eachDayOfInterval`) are given their documented meanings on the
  minute/day encoding.
-/

/-- The `'H' | 'L'` tide-type tag. -/
inductive HL where
  | H
  | L
deriving DecidableEq, Repr

/-- `types.ts` `TidePrediction`: raw service row, with `t` and `v` already
parsed (the source parses them with `parse` and `parseFloat`). -/
structure TidePrediction where
  t : Int
  v : ℚ
  type : Option HL
deriving DecidableEq, Repr

/-- `types.ts` `TideEvent`. -/
structure TideEvent where
  time : Int
  height : ℚ
  isPeak : Bool
  type : Option HL
deriving DecidableEq, Repr

/-- `types.ts` `DailyTideData`; `date` is the epoch-day index of the
midnight `Date` the source stores. -/
structure DailyTideData where
  date : Int
  events : List TideEvent
  maxHeight : ℚ
  minHeight : ℚ
  meetsThreshold : Bool
deriving DecidableEq, Repr

/-- `App.tsx` `SavedStation`. -/
structure SavedStation where
  id : String
  name : String
deriving DecidableEq, Repr

/-- `App.tsx` `NotificationSettings`. -/
structure NotificationSettings where
  enabled : Bool
  leadDays : Int
deriving DecidableEq, Repr

/-- Epoch-day index of a minute timestamp (floor division: minutes before
the epoch still fall on the preceding day). -/
def dayOfMinutes (t : Int) : Int := Int.fdiv t 1440

/-- Midnight minute of an epoch day (a `date-fns` day `Date`). -/
def dayStartMinutes (d : Int) : Int := d * 1440

/-- `date-fns` `isSameDay` on a minute timestamp and an epoch day. -/
def isSameDayOf (t : Int) (d : Int) : Bool := dayOfMinutes t == d

/-- `date-fns` `isAfter a b`: `a` is strictly later than `b`. -/
def isAfter (a b : Int) : Bool := b < a

/-- `date-fns` `differenceInDays a b`: number of full days from `b` to `a`
(truncated toward zero). -/
def differenceInDays (a b : Int) : Int := Int.tdiv (a - b) 1440

/-- `date-fns` `eachDayOfInterval` on epoch days: all days from `s` to `e`
inclusive, ascending. -/
def eachDayOfInterval (s e : Int) : List Int :=
  (List.range (e - s + 1).toNat).map (fun i : Nat => s + (i : Int))

/-- `Math.max(...heights)` guarded by `heights.length ? ... : 0`
(`App.tsx` line 159). -/
def maxOr0 : List ℚ → ℚ
  | [] => 0
  | h :: t => t.foldl max h

/-- `Math.min(...)` guarded by `events.length ? ... : 0`
(`App.tsx` line 165). -/
def minOr0 : List ℚ → ℚ
  | [] => 0
  | h :: t => t.foldl min h

/-- The `.map` body at `App.tsx` lines 151–156: a prediction becomes a
`TideEvent`. -/
def predToEvent (p : TidePrediction) : TideEvent :=
  { time := p.t, height := p.v, isPeak := true, type := p.type }

/-- The per-day body of `days.map` in `loadTideData` (`App.tsx` lines
148–168): bucket the fetched predictions into the day, compute
max/min/threshold. -/
def processDay (threshold : ℚ) (hilo : List TidePrediction) (day : Int) :
    DailyTideData :=
  let events : List TideEvent :=
    (hilo.filter (fun p => isSameDayOf p.t day)).map predToEvent
  let heights : List ℚ :=
    (events.filter (fun e => e.type == some HL.H)).map (fun e => e.height)
  let maxHeight : ℚ := maxOr0 heights
  { date := day
    events := events
    maxHeight := maxHeight
    minHeight := minOr0 (events.map (fun e => e.height))
    meetsThreshold := decide (threshold ≤ maxHeight) }

/-- `processed` in `loadTideData`: one `DailyTideData` for each day of the
interval from `monthStart` to `monthEnd`. -/
def processedDays (threshold : ℚ) (hilo : List TidePrediction)
    (monthStart monthEnd : Int) : List DailyTideData :=
  (eachDayOfInterval monthStart monthEnd).map (processDay threshold hilo)

/-- The component state touched by `loadTideData`. -/
structure AppState where
  loading : Bool
  dailyData : List DailyTideData
  error : Option String
deriving DecidableEq, Repr

/-- The error message set in the `catch` branch (`App.tsx` line 174). -/
def loadErrorMessage : String :=
  "Could not load tide data for this station. Please try another."

/-- `loadTideData` (`App.tsx` lines 134–178) as a state transformer: the
fetch outcome is passed in as `fetchResult`; `try`/`catch`/`finally`
become a `match`, with `setLoading(false)` applied on both paths. -/
def loadTideData (threshold : ℚ) (monthStart monthEnd : Int)
    (fetchResult : Except Unit (List TidePrediction)) (st : AppState) :
    AppState :=
  let st1 : AppState := { st with loading := true, error := none }
  match fetchResult with
  | Except.error _ =>
      { st1 with error := some loadErrorMessage, loading := false }
  | Except.ok hilo =>
      { st1 with
          dailyData := processedDays threshold hilo monthStart monthEnd,
          loading := false }

/-- `thresholdEvents` (`App.tsx` lines 219–223). -/
def thresholdEvents (threshold : ℚ) (dailyData : List DailyTideData) :
    List TideEvent :=
  (dailyData.filter (fun d => d.meetsThreshold)).flatMap
    (fun d => d.events.filter
      (fun e => e.type == some HL.H && decide (threshold ≤ e.height)))

/-- `localStorage`: an association list from keys to values; `getItem` is
`List.lookup`, `setItem` of a fresh key appends. -/
abbrev Storage := List (String × String)

/-- The inputs `checkUpcomingTidesForAlerts` closes over, plus the browser
facts it reads (`Notification.permission`,
`navigator.serviceWorker.controller`). -/
structure AlertEnv where
  enabled : Bool
  permissionGranted : Bool
  leadDays : Int
  threshold : ℚ
  stationId : String
  stationName : String
  today : Int
  hasController : Bool

/-- The `SHOW_NOTIFICATION` payload posted to the service worker
(`App.tsx` lines 118–125), keeping the data the formatted strings are
built from. -/
structure PostedNotification where
  stationId : String
  stationName : String
  day : Int
  height : ℚ
  time : Int
deriving DecidableEq, Repr

/-- The dedup key `alert_${station.id}_${format(day.date, 'yyyyMMdd')}`
(`App.tsx` line 114); `format ... 'yyyyMMdd'` renders the epoch day, which
`toString` stands in for (both are injective on days). -/
def mkAlertKey (stationId : String) (day : Int) : String :=
  "alert_" ++ stationId ++ "_" ++ toString day

/-- The storage entry written by `localStorage.setItem(alertKey, 'sent')`
(`App.tsx` line 126). -/
def sentEntry (n : PostedNotification) : String × String :=
  (mkAlertKey n.stationId n.day, "sent")

/-- The notification built for `day`'s found peak event. -/
def mkNotification (env : AlertEnv) (day : DailyTideData) (e : TideEvent) :
    PostedNotification :=
  { stationId := env.stationId, stationName := env.stationName,
    day := day.date, height := e.height, time := e.time }

/-- The filter building `upcomingCrossings` (`App.tsx` lines 100–104). -/
def upcomingCrossing (env : AlertEnv) (d : DailyTideData) : Bool :=
  d.meetsThreshold &&
    isAfter (dayStartMinutes d.date) env.today &&
    decide (differenceInDays (dayStartMinutes d.date) env.today ≤
      env.leadDays + 7)

/-- The `for (const day of upcomingCrossings)` loop (`App.tsx` lines
106–131), accumulating posted notifications and storage writes. -/
def processAlerts (env : AlertEnv) :
    List DailyTideData → List PostedNotification → Storage →
    List PostedNotification × Storage
  | [], posted, st => (posted, st)
  | day :: rest, posted, st =>
    let diff := differenceInDays (dayStartMinutes day.date) env.today
    if diff ≤ env.leadDays then
      match day.events.find?
          (fun e => e.type == some HL.H && decide (env.threshold ≤ e.height))
        with
      | some maxEvent =>
        let alertKey := mkAlertKey env.stationId day.date
        if (List.lookup alertKey st).isNone then
          if env.hasController then
            let n := mkNotification env day maxEvent
            processAlerts env rest (posted ++ [n]) (st ++ [sentEntry n])
          else
            processAlerts env rest posted st
        else
          processAlerts env rest posted st
      | none => processAlerts env rest posted st
    else
      processAlerts env rest posted st

/-- `checkUpcomingTidesForAlerts` (`App.tsx` lines 96–132): returns the
notifications posted in this run and the storage after it. -/
def checkUpcomingTidesForAlerts (env : AlertEnv) (storage : Storage)
    (data : List DailyTideData) : List PostedNotification × Storage :=
  if env.enabled && env.permissionGranted then
    processAlerts env (data.filter (upcomingCrossing env)) [] storage
  else
    ([], storage)

/-- One later invocation of `checkUpcomingTidesForAlerts`: the environment
and bucketed data it runs with (settings, station, threshold and the
clock may all have changed between runs). -/
structure AlertRun where
  env : AlertEnv
  data : List DailyTideData

/-- A sequence of runs against the same browser storage, collecting every
notification posted. -/
def runAlertRuns : Storage → List AlertRun → List PostedNotification × Storage
  | st, [] => ([], st)
  | st, r :: rs =>
    let p := checkUpcomingTidesForAlerts r.env st r.data
    let q := runAlertRuns p.2 rs
    (p.1 ++ q.1, q.2)

/-- `toggleFavorite` (`App.tsx` lines 198–207). -/
def toggleFavorite (station : SavedStation) (prev : List SavedStation) :
    List SavedStation :=
  if prev.any (fun f => f.id == station.id) then
    prev.filter (fun f => f.id != station.id)
  else
    prev ++ [station]

/-- The removal handler on a favorite chip (`App.tsx` line 357). -/
def removeFavorite (id : String) (prev : List SavedStation) :
    List SavedStation :=
  prev.filter (fun f => f.id != id)

/-- A user action on the favorites list. -/
inductive FavOp where
  | toggle (station : SavedStation)
  | remove (id : String)

/-- Apply one favorites action. -/
def applyFavOp (prev : List SavedStation) : FavOp → List SavedStation
  | FavOp.toggle s => toggleFavorite s prev
  | FavOp.remove id => removeFavorite id prev

/-- The favorites list after a sequence of actions, starting from the
initial empty list. -/
def runFavOps (ops : List FavOp) : List SavedStation :=
  ops.foldl applyFavOp []

/-! ## Helper lemmas -/

lemma processDay_date (t : ℚ) (hilo : List TidePrediction) (day : Int) :
    (processDay t hilo day).date = day := rfl

lemma processDay_events (t : ℚ) (hilo : List TidePrediction) (day : Int) :
    (processDay t hilo day).events =
      (hilo.filter (fun p => isSameDayOf p.t day)).map predToEvent := rfl

lemma processDay_maxHeight (t : ℚ) (hilo : List TidePrediction) (day : Int) :
    (processDay t hilo day).maxHeight =
      maxOr0 (((processDay t hilo day).events.filter
        (fun e => e.type == some HL.H)).map (fun e => e.height)) := rfl

lemma processDay_minHeight (t : ℚ) (hilo : List TidePrediction) (day : Int) :
    (processDay t hilo day).minHeight =
      minOr0 ((processDay t hilo day).events.map (fun e => e.height)) := rfl

lemma processDay_meetsThreshold (t : ℚ) (hilo : List TidePrediction)
    (day : Int) :
    (processDay t hilo day).meetsThreshold =
      decide (t ≤ maxOr0 (((processDay t hilo day).events.filter
        (fun e => e.type == some HL.H)).map (fun e => e.height))) := rfl

/-! ## C1 -/

/-- C1: for every day produced by a fetch, `meetsThreshold` is true iff the
maximum height among that day's high-tide events (0 when there are none)
is at least the configured threshold. -/
theorem c1_meetsThreshold_iff_max_high (t : ℚ) (hilo : List TidePrediction)
    (s e : Int) (d : DailyTideData) (h : d ∈ processedDays t hilo s e) :
    d.meetsThreshold = true ↔
      t ≤ maxOr0 ((d.events.filter
        (fun ev => ev.type == some HL.H)).map (fun ev => ev.height)) := by
  rcases List.mem_map.mp h with ⟨day, _, rfl⟩
  rw [processDay_meetsThreshold]
  exact decide_eq_true_iff

theorem c1_witness :
    (processDay 6 [⟨100, 7, some HL.H⟩] 0 ∈
      processedDays 6 [⟨100, 7, some HL.H⟩] 0 0) ∧
    ((processDay 6 [⟨100, 7, some HL.H⟩] 0).meetsThreshold = true ↔
      (6 : ℚ) ≤ maxOr0 (((processDay 6 [⟨100, 7, some HL.H⟩] 0).events.filter
        (fun ev => ev.type == some HL.H)).map (fun ev => ev.height))) :=
  ⟨by decide,
   c1_meetsThreshold_iff_max_high 6 [⟨100, 7, some HL.H⟩] 0 0
     (processDay 6 [⟨100, 7, some HL.H⟩] 0) (by decide)⟩

/-! ## C5 -/

/-- C5 counterexample: on a day whose events are a low tide at height 7 and
a high tide at height 3, the maximum of the heights of the day's events is
7, but `maxHeight` is 3 — the source takes the maximum over `'H'` events
only (`App.tsx` lines 158–159). -/
theorem c5_counterexample :
    ((processDay 6 [⟨100, 7, some HL.L⟩, ⟨200, 3, some HL.H⟩] 0).events.map
        (fun ev => ev.height)) = [7, 3] ∧
    (∀ x ∈ (processDay 6 [⟨100, 7, some HL.L⟩, ⟨200, 3, some HL.H⟩]
        0).events.map (fun ev => ev.height), x ≤ 7) ∧
    (processDay 6 [⟨100, 7, some HL.L⟩, ⟨200, 3, some HL.H⟩] 0).maxHeight
      = 3 ∧
    (processDay 6 [⟨100, 7, some HL.L⟩, ⟨200, 3, some HL.H⟩] 0).maxHeight
      ≠ 7 := by
  refine ⟨by decide, by decide, by decide, by decide⟩

/-- C5 amended: for every `DailyTideData` entry built from a fetch,
`maxHeight` is the maximum of the heights of that day's high-tide (`'H'`)
events (0 when there are none), and `minHeight` is the minimum of the
heights of all that day's events (0 when there are none). -/
theorem c5_max_min_fields (t : ℚ) (hilo : List TidePrediction) (s e : Int)
    (d : DailyTideData) (h : d ∈ processedDays t hilo s e) :
    d.maxHeight = maxOr0 ((d.events.filter
        (fun ev => ev.type == some HL.H)).map (fun ev => ev.height)) ∧
    d.minHeight = minOr0 (d.events.map (fun ev => ev.height)) := by
  rcases List.mem_map.mp h with ⟨day, _, rfl⟩
  exact ⟨processDay_maxHeight t hilo day, processDay_minHeight t hilo day⟩

theorem c5_witness :
    (processDay 6 [⟨100, 7, some HL.L⟩] 0 ∈
      processedDays 6 [⟨100, 7, some HL.L⟩] 0 0) ∧
    ((processDay 6 [⟨100, 7, some HL.L⟩] 0).maxHeight =
      maxOr0 (((processDay 6 [⟨100, 7, some HL.L⟩] 0).events.filter
        (fun ev => ev.type == some HL.H)).map (fun ev => ev.height)) ∧
     (processDay 6 [⟨100, 7, some HL.L⟩] 0).minHeight =
      minOr0 ((processDay 6 [⟨100, 7, some HL.L⟩] 0).events.map
        (fun ev => ev.height))) :=
  ⟨by decide,
   c5_max_min_fields 6 [⟨100, 7, some HL.L⟩] 0 0
     (processDay 6 [⟨100, 7, some HL.L⟩] 0) (by decide)⟩

/-! ## C6 -/

/-- C6: when the predictions fetch throws, `loadTideData` sets the single
user-visible error message, leaves `dailyData` unchanged, and clears the
loading flag. -/
theorem c6_fetch_error_state (t : ℚ) (s e : Int) (err : Unit)
    (st : AppState) :
    (loadTideData t s e (Except.error err) st).error
        = some loadErrorMessage ∧
    (loadTideData t s e (Except.error err) st).dailyData = st.dailyData ∧
    (loadTideData t s e (Except.error err) st).loading = false :=
  ⟨rfl, rfl, rfl⟩

/-! ## C9 -/

/-- C9: a fetched day with no high-tide events has `maxHeight = 0`, so it
meets the threshold exactly when the threshold is ≤ 0 and never meets a
strictly positive threshold; a day with no events at all additionally has
`minHeight = 0`. -/
theorem c9_no_high_events (t : ℚ) (hilo : List TidePrediction) (s e : Int)
    (d : DailyTideData) (h : d ∈ processedDays t hilo s e)
    (hH : d.events.filter (fun ev => ev.type == some HL.H) = []) :
    d.maxHeight = 0 ∧
    (d.meetsThreshold = true ↔ t ≤ 0) ∧
    (0 < t → d.meetsThreshold = false) ∧
    (d.events = [] → d.minHeight = 0) := by
  rcases List.mem_map.mp h with ⟨day, _, rfl⟩
  have hmax : (processDay t hilo day).maxHeight = 0 := by
    rw [processDay_maxHeight, hH]; rfl
  have hiff : (processDay t hilo day).meetsThreshold = true ↔ t ≤ 0 := by
    rw [processDay_meetsThreshold, hH]
    rw [show maxOr0 (List.map (fun ev => ev.height) ([] : List TideEvent))
          = 0 from rfl]
    exact decide_eq_true_iff
  refine ⟨hmax, hiff, ?_, ?_⟩
  · intro hpos
    rcases Bool.eq_false_or_eq_true (processDay t hilo day).meetsThreshold
        with hb | hb
    · exact absurd (hiff.mp hb) (not_le.mpr hpos)
    · exact hb
  · intro hnil
    rw [processDay_minHeight, hnil]; rfl

theorem c9_witness :
    (processDay 6 [] 0 ∈ processedDays 6 [] 0 0) ∧
    ((processDay 6 [] 0).events.filter
        (fun ev => ev.type == some HL.H) = []) ∧
    ((processDay 6 [] 0).maxHeight = 0 ∧
     ((processDay 6 [] 0).meetsThreshold = true ↔ (6 : ℚ) ≤ 0) ∧
     ((0 : ℚ) < 6 → (processDay 6 [] 0).meetsThreshold = false) ∧
     ((processDay 6 [] 0).events = [] → (processDay 6 [] 0).minHeight = 0)) :=
  ⟨by decide, by decide,
   c9_no_high_events 6 [] 0 0 (processDay 6 [] 0) (by decide) (by decide)⟩

/-! ## C2 -/

lemma mem_eachDayOfInterval (s e x : Int) :
    x ∈ eachDayOfInterval s e ↔ s ≤ x ∧ x ≤ e := by
  simp only [eachDayOfInterval, List.mem_map, List.mem_range]
  constructor
  · rintro ⟨i, hi, rfl⟩
    omega
  · rintro ⟨h1, h2⟩
    exact ⟨(x - s).toNat, by omega, by omega⟩

lemma pairwise_eachDayOfInterval (s e : Int) :
    List.Pairwise (· < ·) (eachDayOfInterval s e) := by
  unfold eachDayOfInterval
  rw [List.pairwise_map]
  exact (List.pairwise_lt_range _).imp (by omega)

/-- C2: after a successful fetch, `dailyData` has exactly one entry per
calendar day from the first to the last day of the month, in strictly
ascending date order, and each entry's events are exactly the fetched
predictions parsed to that day, in service order. -/
theorem c2_dailyData_bucketing (t : ℚ) (hilo : List TidePrediction)
    (s e : Int) (st : AppState) :
    (loadTideData t s e (Except.ok hilo) st).dailyData
        = processedDays t hilo s e
    ∧ (processedDays t hilo s e).map (fun d => d.date)
        = eachDayOfInterval s e
    ∧ List.Pairwise (· < ·)
        ((processedDays t hilo s e).map (fun d => d.date))
    ∧ (∀ x : Int, x ∈ eachDayOfInterval s e ↔ s ≤ x ∧ x ≤ e)
    ∧ (∀ d ∈ processedDays t hilo s e,
        d.events = (hilo.filter (fun p => isSameDayOf p.t d.date)).map
          predToEvent) := by
  have hdates : (processedDays t hilo s e).map (fun d => d.date)
      = eachDayOfInterval s e := by
    unfold processedDays
    rw [List.map_map]
    exact List.map_id' (eachDayOfInterval s e)
  refine ⟨rfl, hdates, ?_, fun x => mem_eachDayOfInterval s e x, ?_⟩
  · rw [hdates]
    exact pairwise_eachDayOfInterval s e
  · intro d hd
    rcases List.mem_map.mp hd with ⟨day, _, rfl⟩
    rw [processDay_date]
    exact processDay_events t hilo day

theorem c2_witness :
    (loadTideData 6 0 1 (Except.ok [⟨100, 7, some HL.H⟩])
        ⟨false, [], none⟩).dailyData
      = processedDays 6 [⟨100, 7, some HL.H⟩] 0 1
    ∧ (processedDays 6 [⟨100, 7, some HL.H⟩] 0 1).map (fun d => d.date)
      = eachDayOfInterval 0 1
    ∧ List.Pairwise (· < ·)
        ((processedDays 6 [⟨100, 7, some HL.H⟩] 0 1).map (fun d => d.date))
    ∧ (∀ x : Int, x ∈ eachDayOfInterval 0 1 ↔ 0 ≤ x ∧ x ≤ 1)
    ∧ (∀ d ∈ processedDays 6 [⟨100, 7, some HL.H⟩] 0 1,
        d.events = ([⟨100, 7, some HL.H⟩].filter
          (fun p => isSameDayOf p.t d.date)).map predToEvent) :=
  c2_dailyData_bucketing 6 [⟨100, 7, some HL.H⟩] 0 1 ⟨false, [], none⟩

/-! ## C8 -/

lemma le_foldl_max (l : List ℚ) :
    ∀ a x : ℚ, x = a ∨ x ∈ l → x ≤ l.foldl max a := by
  induction l with
  | nil =>
    intro a x h
    rcases h with rfl | h
    · exact le_refl x
    · exact absurd h (List.not_mem_nil x)
  | cons b tl ih =>
    intro a x h
    show x ≤ tl.foldl max (max a b)
    rcases h with rfl | h
    · exact le_trans (le_max_left x b)
        (ih (max x b) (max x b) (Or.inl rfl))
    · rcases List.mem_cons.mp h with rfl | h
      · exact le_trans (le_max_right a x)
          (ih (max a x) (max a x) (Or.inl rfl))
      · exact ih (max a b) x (Or.inr h)

lemma le_maxOr0_of_mem {x : ℚ} {l : List ℚ} (h : x ∈ l) : x ≤ maxOr0 l := by
  cases l with
  | nil => exact absurd h (List.not_mem_nil x)
  | cons b tl =>
    show x ≤ tl.foldl max b
    rcases List.mem_cons.mp h with rfl | h
    · exact le_foldl_max tl x x (Or.inl rfl)
    · exact le_foldl_max tl b x (Or.inr h)

lemma flatMap_filter_of_excluded_nil {α β : Type} (p : α → Bool)
    (f : α → List β) (L : List α)
    (h : ∀ d ∈ L, p d = false → f d = []) :
    (L.filter p).flatMap f = L.flatMap f := by
  induction L with
  | nil => rfl
  | cons a tl ih =>
    have htl : ∀ d ∈ tl, p d = false → f d = [] :=
      fun d hd => h d (List.mem_cons_of_mem a hd)
    cases hp : p a with
    | true => simp [List.filter_cons, hp, ih htl]
    | false => simp [List.filter_cons, hp, ih htl, h a (List.mem_cons_self a tl) hp]

lemma processDay_filter_nil_of_not_meets (t : ℚ)
    (hilo : List TidePrediction) (day : Int)
    (h : (processDay t hilo day).meetsThreshold = false) :
    (processDay t hilo day).events.filter
      (fun ev => ev.type == some HL.H && decide (t ≤ ev.height)) = [] := by
  rw [List.filter_eq_nil_iff]
  intro ev hev
  intro hcontra
  rw [Bool.and_eq_true] at hcontra
  rcases hcontra with ⟨hty, hle⟩
  have hmem : ev.height ∈ (((processDay t hilo day).events.filter
      (fun x => x.type == some HL.H)).map (fun x => x.height)) :=
    List.mem_map_of_mem _ (List.mem_filter.mpr ⟨hev, hty⟩)
  have hle2 : t ≤ maxOr0 (((processDay t hilo day).events.filter
      (fun x => x.type == some HL.H)).map (fun x => x.height)) :=
    le_trans (of_decide_eq_true hle) (le_maxOr0_of_mem hmem)
  rw [processDay_meetsThreshold] at h
  exact absurd (decide_eq_true hle2) (by rw [h]; exact Bool.false_ne_true)

/-- C8: for a fetched month, `thresholdEvents` equals the collection of all
high-tide events of the month with height at least the threshold: the
per-day `meetsThreshold` pre-filter discards no qualifying event. -/
theorem c8_thresholdEvents_complete (t : ℚ) (hilo : List TidePrediction)
    (s e : Int) :
    thresholdEvents t (processedDays t hilo s e) =
      (processedDays t hilo s e).flatMap
        (fun d => d.events.filter
          (fun ev => ev.type == some HL.H && decide (t ≤ ev.height))) := by
  unfold thresholdEvents
  refine flatMap_filter_of_excluded_nil _ _ _ ?_
  intro d hd hfalse
  rcases List.mem_map.mp hd with ⟨day, _, rfl⟩
  exact processDay_filter_nil_of_not_meets t hilo day hfalse

/-! ## C7 -/

lemma favorites_any_eq_true {prev : List SavedStation} {s : SavedStation}
    (h : ∃ f ∈ prev, f.id = s.id) :
    prev.any (fun f => f.id == s.id) = true := by
  rcases h with ⟨f, hf, hid⟩
  exact List.any_eq_true.mpr ⟨f, hf, by simp [hid]⟩

lemma favorites_any_eq_false {prev : List SavedStation} {s : SavedStation}
    (h : ¬ ∃ f ∈ prev, f.id = s.id) :
    prev.any (fun f => f.id == s.id) = false := by
  rw [Bool.eq_false_iff]
  intro hc
  rcases List.any_eq_true.mp hc with ⟨f, hf, hbeq⟩
  exact h ⟨f, hf, by simpa using hbeq⟩

lemma applyFavOp_nodup (prev : List SavedStation) (op : FavOp)
    (h : (prev.map (fun f => f.id)).Nodup) :
    ((applyFavOp prev op).map (fun f => f.id)).Nodup := by
  cases op with
  | toggle s =>
    show ((toggleFavorite s prev).map (fun f => f.id)).Nodup
    unfold toggleFavorite
    cases hany : prev.any (fun f => f.id == s.id) with
    | true =>
      simp only [hany, if_true]
      exact h.sublist (List.Sublist.map _ (List.filter_sublist prev))
    | false =>
      simp only [hany, Bool.false_eq_true, if_false, List.map_append,
        List.map_cons, List.map_nil]
      rw [List.nodup_append]
      refine ⟨h, List.nodup_singleton _, ?_⟩
      intro a ha hb
      rcases List.mem_map.mp ha with ⟨f, hf, rfl⟩
      have : f.id = s.id := by simpa using hb
      by_cases hex : ∃ g ∈ prev, g.id = s.id
      · rw [favorites_any_eq_true hex] at hany
        exact Bool.true_eq_false.mp hany
      · exact hex ⟨f, hf, this⟩
  | remove id =>
    show ((removeFavorite id prev).map (fun f => f.id)).Nodup
    exact h.sublist (List.Sublist.map _ (List.filter_sublist prev))

lemma runFavOps_nodup_aux :
    ∀ (ops : List FavOp) (prev : List SavedStation),
      (prev.map (fun f => f.id)).Nodup →
      ((ops.foldl applyFavOp prev).map (fun f => f.id)).Nodup := by
  intro ops
  induction ops with
  | nil => intro prev h; exact h
  | cons op tl ih =>
    intro prev h
    exact ih (applyFavOp prev op) (applyFavOp_nodup prev op h)

/-- C7: starting from the empty favorites list, every favorites operation
preserves uniqueness of station ids; toggling removes all entries with the
current station's id when present, and appends the station exactly once
when absent. -/
theorem c7_favorites_id_unique :
    (∀ ops : List FavOp, ((runFavOps ops).map (fun f => f.id)).Nodup)
    ∧ (∀ (prev : List SavedStation) (s : SavedStation),
        (∃ f ∈ prev, f.id = s.id) →
          toggleFavorite s prev = prev.filter (fun f => f.id != s.id)
          ∧ ∀ f ∈ toggleFavorite s prev, f.id ≠ s.id)
    ∧ (∀ (prev : List SavedStation) (s : SavedStation),
        (¬ ∃ f ∈ prev, f.id = s.id) →
          toggleFavorite s prev = prev ++ [s]
          ∧ (toggleFavorite s prev).filter (fun f => f.id == s.id) = [s]) := by
  refine ⟨?_, ?_, ?_⟩
  · intro ops
    exact runFavOps_nodup_aux ops [] (by simp)
  · intro prev s h
    have heq : toggleFavorite s prev = prev.filter (fun f => f.id != s.id) := by
      unfold toggleFavorite
      rw [favorites_any_eq_true h, if_pos rfl]
    refine ⟨heq, ?_⟩
    intro f hf
    rw [heq] at hf
    have := List.of_mem_filter hf
    simpa using this
  · intro prev s h
    have heq : toggleFavorite s prev = prev ++ [s] := by
      unfold toggleFavorite
      rw [favorites_any_eq_false h]
      simp
    refine ⟨heq, ?_⟩
    rw [heq, List.filter_append]
    have h1 : prev.filter (fun f => f.id == s.id) = [] := by
      rw [List.filter_eq_nil_iff]
      intro f hf hbeq
      exact h ⟨f, hf, by simpa using hbeq⟩
    rw [h1]
    simp

theorem c7_witness :
    ((runFavOps [FavOp.toggle ⟨"1", "a"⟩]).map (fun f => f.id)).Nodup
    ∧ (toggleFavorite ⟨"1", "b"⟩ [⟨"1", "a"⟩]
        = [(⟨"1", "a"⟩ : SavedStation)].filter (fun f => f.id != "1")
       ∧ ∀ f ∈ toggleFavorite ⟨"1", "b"⟩ [⟨"1", "a"⟩], f.id ≠ "1")
    ∧ (toggleFavorite ⟨"3", "c"⟩ [⟨"1", "a"⟩] = [⟨"1", "a"⟩, ⟨"3", "c"⟩]
       ∧ (toggleFavorite ⟨"3", "c"⟩ [⟨"1", "a"⟩]).filter
           (fun f => f.id == "3") = [⟨"3", "c"⟩]) :=
  ⟨c7_favorites_id_unique.1 [FavOp.toggle ⟨"1", "a"⟩],
   c7_favorites_id_unique.2.1 [⟨"1", "a"⟩] ⟨"1", "b"⟩
     ⟨⟨"1", "a"⟩, by decide, rfl⟩,
   c7_favorites_id_unique.2.2 [⟨"1", "a"⟩] ⟨"3", "c"⟩ (by decide)⟩

/-! ## Alert-loop lemmas -/

lemma processAlerts_nil (env : AlertEnv) (posted : List PostedNotification)
    (st : Storage) : processAlerts env [] posted st = (posted, st) := rfl

lemma processAlerts_cons (env : AlertEnv) (day : DailyTideData)
    (rest : List DailyTideData) (posted : List PostedNotification)
    (st : Storage) :
    processAlerts env (day :: rest) posted st =
      if differenceInDays (dayStartMinutes day.date) env.today
          ≤ env.leadDays then
        match day.events.find?
            (fun e => e.type == some HL.H && decide (env.threshold ≤ e.height))
          with
        | some maxEvent =>
          if (List.lookup (mkAlertKey env.stationId day.date) st).isNone then
            if env.hasController then
              processAlerts env rest
                (posted ++ [mkNotification env day maxEvent])
                (st ++ [sentEntry (mkNotification env day maxEvent)])
            else processAlerts env rest posted st
          else processAlerts env rest posted st
        | none => processAlerts env rest posted st
      else processAlerts env rest posted st := rfl

lemma processAlerts_storage_spec (env : AlertEnv) :
    ∀ (l : List DailyTideData) (posted : List PostedNotification)
      (st : Storage),
      ∃ new : List PostedNotification,
        processAlerts env l posted st
          = (posted ++ new, st ++ new.map sentEntry) := by
  intro l
  induction l with
  | nil =>
    intro posted st
    exact ⟨[], by simp [processAlerts_nil]⟩
  | cons day rest ih =>
    intro posted st
    rw [processAlerts_cons]
    by_cases hlead : differenceInDays (dayStartMinutes day.date) env.today
        ≤ env.leadDays
    · rw [if_pos hlead]
      cases hfind : day.events.find?
          (fun e => e.type == some HL.H && decide (env.threshold ≤ e.height))
        with
      | none =>
        simp only [hfind]
        exact ih posted st
      | some maxEvent =>
        simp only [hfind]
        by_cases hkey : (List.lookup (mkAlertKey env.stationId day.date)
            st).isNone = true
        · rw [if_pos hkey]
          by_cases hc : env.hasController = true
          · rw [if_pos hc]
            obtain ⟨new, hnew⟩ := ih
              (posted ++ [mkNotification env day maxEvent])
              (st ++ [sentEntry (mkNotification env day maxEvent)])
            refine ⟨mkNotification env day maxEvent :: new, ?_⟩
            rw [hnew]
            simp
          · rw [if_neg hc]
            exact ih posted st
        · rw [if_neg hkey]
          exact ih posted st
    · rw [if_neg hlead]
      exact ih posted st

lemma processAlerts_no_controller (env : AlertEnv)
    (hc : env.hasController = false) :
    ∀ (l : List DailyTideData) (posted : List PostedNotification)
      (st : Storage), processAlerts env l posted st = (posted, st) := by
  intro l
  induction l with
  | nil => intro posted st; exact processAlerts_nil env posted st
  | cons day rest ih =>
    intro posted st
    rw [processAlerts_cons]
    by_cases hlead : differenceInDays (dayStartMinutes day.date) env.today
        ≤ env.leadDays
    · rw [if_pos hlead]
      cases hfind : day.events.find?
          (fun e => e.type == some HL.H && decide (env.threshold ≤ e.height))
        with
      | none =>
        simp only [hfind]
        exact ih posted st
      | some maxEvent =>
        simp only [hfind]
        by_cases hkey : (List.lookup (mkAlertKey env.stationId day.date)
            st).isNone = true
        · rw [if_pos hkey, hc]
          simp only [Bool.false_eq_true, if_false]
          exact ih posted st
        · rw [if_neg hkey]
          exact ih posted st
    · rw [if_neg hlead]
      exact ih posted st

/-! ## C10 -/

/-- C10: in a single run of `checkUpcomingTidesForAlerts`, the storage
after the run is exactly the storage before it plus one sent-marker entry
per notification posted in the run — the marker is written iff the
notification was posted — and when no service worker controller is
present, nothing is posted and storage is untouched. -/
theorem c10_marker_iff_posted (env : AlertEnv) (storage : Storage)
    (data : List DailyTideData) :
    (checkUpcomingTidesForAlerts env storage data).2
        = storage ++ ((checkUpcomingTidesForAlerts env storage data).1).map
            sentEntry
    ∧ (env.hasController = false →
        (checkUpcomingTidesForAlerts env storage data).1 = []
        ∧ (checkUpcomingTidesForAlerts env storage data).2 = storage) := by
  unfold checkUpcomingTidesForAlerts
  by_cases hgate : (env.enabled && env.permissionGranted) = true
  · rw [if_pos hgate]
    constructor
    · obtain ⟨new, hnew⟩ := processAlerts_storage_spec env
        (data.filter (upcomingCrossing env)) [] storage
      rw [hnew]
      simp
    · intro hc
      rw [processAlerts_no_controller env hc]
      simp
  · rw [if_neg hgate]
    simp

theorem c10_witness :
    (checkUpcomingTidesForAlerts
        ⟨true, true, 1, 6, "S", "Station", 0, true⟩ []
        [processDay 6 [⟨1500, 7, some HL.H⟩] 1]).2
      = [] ++ ((checkUpcomingTidesForAlerts
          ⟨true, true, 1, 6, "S", "Station", 0, true⟩ []
          [processDay 6 [⟨1500, 7, some HL.H⟩] 1]).1).map sentEntry
    ∧ ((⟨true, true, 1, 6, "S", "Station", 0, true⟩ : AlertEnv).hasController
          = false →
        (checkUpcomingTidesForAlerts
            ⟨true, true, 1, 6, "S", "Station", 0, true⟩ []
            [processDay 6 [⟨1500, 7, some HL.H⟩] 1]).1 = []
        ∧ (checkUpcomingTidesForAlerts
            ⟨true, true, 1, 6, "S", "Station", 0, true⟩ []
            [processDay 6 [⟨1500, 7, some HL.H⟩] 1]).2 = []) :=
  c10_marker_iff_posted ⟨true, true, 1, 6, "S", "Station", 0, true⟩ []
    [processDay 6 [⟨1500, 7, some HL.H⟩] 1]

lemma processAlerts_posted_src (env : AlertEnv) :
    ∀ (l : List DailyTideData) (posted : List PostedNotification)
      (st : Storage) (n : PostedNotification),
      n ∈ (processAlerts env l posted st).1 →
      n ∈ posted ∨ ∃ d, d ∈ l ∧ n.day = d.date ∧
        differenceInDays (dayStartMinutes d.date) env.today
          ≤ env.leadDays := by
  intro l
  induction l with
  | nil =>
    intro posted st n hn
    rw [processAlerts_nil] at hn
    exact Or.inl hn
  | cons day rest ih =>
    intro posted st n hn
    rw [processAlerts_cons] at hn
    by_cases hlead : differenceInDays (dayStartMinutes day.date) env.today
        ≤ env.leadDays
    · rw [if_pos hlead] at hn
      cases hfind : day.events.find?
          (fun e => e.type == some HL.H && decide (env.threshold ≤ e.height))
        with
      | none =>
        simp only [hfind] at hn
        rcases ih posted st n hn with h | ⟨d, hd, h1, h2⟩
        · exact Or.inl h
        · exact Or.inr ⟨d, List.mem_cons_of_mem day hd, h1, h2⟩
      | some maxEvent =>
        simp only [hfind] at hn
        by_cases hkey : (List.lookup (mkAlertKey env.stationId day.date)
            st).isNone = true
        · rw [if_pos hkey] at hn
          by_cases hc : env.hasController = true
          · rw [if_pos hc] at hn
            rcases ih (posted ++ [mkNotification env day maxEvent])
                (st ++ [sentEntry (mkNotification env day maxEvent)]) n hn
              with h | ⟨d, hd, h1, h2⟩
            · rcases List.mem_append.mp h with h' | h'
              · exact Or.inl h'
              · have hn0 : n = mkNotification env day maxEvent := by
                  simpa using h'
                refine Or.inr ⟨day, List.mem_cons_self day rest, ?_, hlead⟩
                rw [hn0]
                rfl
            · exact Or.inr ⟨d, List.mem_cons_of_mem day hd, h1, h2⟩
          · rw [if_neg hc] at hn
            rcases ih posted st n hn with h | ⟨d, hd, h1, h2⟩
            · exact Or.inl h
            · exact Or.inr ⟨d, List.mem_cons_of_mem day hd, h1, h2⟩
        · rw [if_neg hkey] at hn
          rcases ih posted st n hn with h | ⟨d, hd, h1, h2⟩
          · exact Or.inl h
          · exact Or.inr ⟨d, List.mem_cons_of_mem day hd, h1, h2⟩
    · rw [if_neg hlead] at hn
      rcases ih posted st n hn with h | ⟨d, hd, h1, h2⟩
      · exact Or.inl h
      · exact Or.inr ⟨d, List.mem_cons_of_mem day hd, h1, h2⟩

/-! ## C3 -/

/-- C3: `checkUpcomingTidesForAlerts` posts a notification only for a day
of the data that meets the threshold, whose date is strictly after today,
and whose `differenceInDays` from today is at most the configured lead
days; no day outside these conditions is ever notified. -/
theorem c3_notification_only_within_conditions (env : AlertEnv)
    (storage : Storage) (data : List DailyTideData)
    (n : PostedNotification)
    (hn : n ∈ (checkUpcomingTidesForAlerts env storage data).1) :
    ∃ d, d ∈ data ∧ n.day = d.date ∧ d.meetsThreshold = true ∧
      isAfter (dayStartMinutes d.date) env.today = true ∧
      differenceInDays (dayStartMinutes d.date) env.today
        ≤ env.leadDays := by
  unfold checkUpcomingTidesForAlerts at hn
  by_cases hgate : (env.enabled && env.permissionGranted) = true
  · rw [if_pos hgate] at hn
    rcases processAlerts_posted_src env (data.filter (upcomingCrossing env))
        [] storage n hn with h | ⟨d, hd, h1, h2⟩
    · exact absurd h (List.not_mem_nil n)
    · have hmem := List.mem_of_mem_filter hd
      have hcross : upcomingCrossing env d = true := List.of_mem_filter hd
      unfold upcomingCrossing at hcross
      rw [Bool.and_eq_true, Bool.and_eq_true] at hcross
      exact ⟨d, hmem, h1, hcross.1.1, hcross.1.2, h2⟩
  · rw [if_neg hgate] at hn
    exact absurd hn (List.not_mem_nil n)

theorem c3_witness :
    ((⟨"S", "Station", 1, 7, 1500⟩ : PostedNotification)
      ∈ (checkUpcomingTidesForAlerts
          ⟨true, true, 1, 6, "S", "Station", 0, true⟩ []
          [processDay 6 [⟨1500, 7, some HL.H⟩] 1]).1)
    ∧ ∃ d, d ∈ [processDay 6 [⟨1500, 7, some HL.H⟩] 1]
        ∧ (⟨"S", "Station", 1, 7, 1500⟩ : PostedNotification).day = d.date
        ∧ d.meetsThreshold = true
        ∧ isAfter (dayStartMinutes d.date) 0 = true
        ∧ differenceInDays (dayStartMinutes d.date) 0 ≤ 1 :=
  ⟨by decide,
   c3_notification_only_within_conditions
     ⟨true, true, 1, 6, "S", "Station", 0, true⟩ []
     [processDay 6 [⟨1500, 7, some HL.H⟩] 1]
     ⟨"S", "Station", 1, 7, 1500⟩ (by decide)⟩

lemma lookup_append_of_isSome {k : String} {st : Storage} (l : Storage)
    (h : (List.lookup k st).isSome = true) :
    List.lookup k (st ++ l) = List.lookup k st := by
  induction st with
  | nil => simp [List.lookup] at h
  | cons p t ih =>
    obtain ⟨a, b⟩ := p
    cases hb : (k == a) with
    | true => simp [List.lookup, hb]
    | false =>
      simp only [List.lookup, hb] at h ⊢
      exact ih h

lemma processAlerts_key_preserved (env : AlertEnv) (k : String) :
    ∀ (l : List DailyTideData) (posted : List PostedNotification)
      (st : Storage),
      (List.lookup k st).isSome = true →
      ((List.lookup k (processAlerts env l posted st).2).isSome = true
       ∧ ∀ n ∈ (processAlerts env l posted st).1,
           n ∈ posted ∨ mkAlertKey n.stationId n.day ≠ k) := by
  intro l
  induction l with
  | nil =>
    intro posted st h
    rw [processAlerts_nil]
    exact ⟨h, fun n hn => Or.inl hn⟩
  | cons day rest ih =>
    intro posted st h
    rw [processAlerts_cons]
    by_cases hlead : differenceInDays (dayStartMinutes day.date) env.today
        ≤ env.leadDays
    · rw [if_pos hlead]
      cases hfind : day.events.find?
          (fun e => e.type == some HL.H && decide (env.threshold ≤ e.height))
        with
      | none =>
        simp only [hfind]
        exact ih posted st h
      | some maxEvent =>
        simp only [hfind]
        by_cases hkey : (List.lookup (mkAlertKey env.stationId day.date)
            st).isNone = true
        · rw [if_pos hkey]
          by_cases hc : env.hasController = true
          · rw [if_pos hc]
            have hne : mkAlertKey env.stationId day.date ≠ k := by
              intro heq
              rw [heq] at hkey
              rw [Option.isNone_iff_eq_none.mp hkey] at h
              exact Bool.false_ne_true h
            have h2 : (List.lookup k
                (st ++ [sentEntry (mkNotification env day maxEvent)])).isSome
                = true := by
              rw [lookup_append_of_isSome _ h]
              exact h
            obtain ⟨ha, hb⟩ := ih
              (posted ++ [mkNotification env day maxEvent])
              (st ++ [sentEntry (mkNotification env day maxEvent)]) h2
            refine ⟨ha, ?_⟩
            intro n hn
            rcases hb n hn with hmem | hne2
            · rcases List.mem_append.mp hmem with h' | h'
              · exact Or.inl h'
              · have hn0 : n = mkNotification env day maxEvent := by
                  simpa using h'
                refine Or.inr ?_
                rw [hn0]
                exact hne
            · exact Or.inr hne2
          · rw [if_neg hc]
            exact ih posted st h
        · rw [if_neg hkey]
          exact ih posted st h
    · rw [if_neg hlead]
      exact ih posted st h

lemma check_key_preserved (env : AlertEnv) (k : String) (storage : Storage)
    (data : List DailyTideData)
    (h : (List.lookup k storage).isSome = true) :
    (List.lookup k (checkUpcomingTidesForAlerts env storage data).2).isSome
        = true
    ∧ ∀ n ∈ (checkUpcomingTidesForAlerts env storage data).1,
        mkAlertKey n.stationId n.day ≠ k := by
  unfold checkUpcomingTidesForAlerts
  by_cases hgate : (env.enabled && env.permissionGranted) = true
  · rw [if_pos hgate]
    obtain ⟨ha, hb⟩ := processAlerts_key_preserved env k
      (data.filter (upcomingCrossing env)) [] storage h
    refine ⟨ha, ?_⟩
    intro n hn
    rcases hb n hn with hmem | hne
    · exact absurd hmem (List.not_mem_nil n)
    · exact hne
  · rw [if_neg hgate]
    exact ⟨h, fun n hn => absurd hn (List.not_mem_nil n)⟩

/-! ## C4 -/

/-- C4: once the sent-marker key for a station/day pair is in storage, no
later run of `checkUpcomingTidesForAlerts` posts another notification for
that station/day pair. -/
theorem c4_at_most_one_notification_per_station_day (sid : String)
    (day : Int) (storage : Storage) (runs : List AlertRun)
    (n : PostedNotification)
    (hkey : (List.lookup (mkAlertKey sid day) storage).isSome = true)
    (hn : n ∈ (runAlertRuns storage runs).1) :
    ¬(n.stationId = sid ∧ n.day = day) := by
  induction runs generalizing storage with
  | nil =>
    rw [show runAlertRuns storage [] = ([], storage) from rfl] at hn
    exact absurd hn (List.not_mem_nil n)
  | cons r rs ih =>
    simp only [runAlertRuns] at hn
    rcases List.mem_append.mp hn with h' | h'
    · intro hpair
      refine (check_key_preserved r.env (mkAlertKey sid day) storage r.data
        hkey).2 n h' ?_
      rw [hpair.1, hpair.2]
    · exact ih (checkUpcomingTidesForAlerts r.env storage r.data).2
        ((check_key_preserved r.env (mkAlertKey sid day) storage r.data
          hkey).1) h'

theorem c4_witness :
    ((List.lookup (mkAlertKey "S" 1)
        [(mkAlertKey "S" 1, "sent")]).isSome = true)
    ∧ ((⟨"T", "Other", 1, 7, 1500⟩ : PostedNotification)
        ∈ (runAlertRuns [(mkAlertKey "S" 1, "sent")]
            [⟨⟨true, true, 1, 6, "T", "Other", 0, true⟩,
              [processDay 6 [⟨1500, 7, some HL.H⟩] 1]⟩]).1)
    ∧ ¬((⟨"T", "Other", 1, 7, 1500⟩ : PostedNotification).stationId = "S"
        ∧ (⟨"T", "Other", 1, 7, 1500⟩ : PostedNotification).day = 1) :=
  ⟨by decide, by decide,
   c4_at_most_one_notification_per_station_day "S" 1
     [(mkAlertKey "S" 1, "sent")]
     [⟨⟨true, true, 1, 6, "T", "Other", 0, true⟩,
       [processDay 6 [⟨1500, 7, some HL.H⟩] 1]⟩]
     ⟨"T", "Other", 1, 7, 1500⟩ (by decide) (by decide)⟩
